import Mathlib

/-!
Shallow embedding of the TailscaleDrive repository's sync/status HTTP
service (src/status.rs), transfer backend (src/tailscale.rs) and mobile
client (TailscaleDrive/rust/src/tailscale_client.rs, renderer.rs).

Machine integers (`u64`) are modelled as `Nat` (no arithmetic in the
embedded code can overflow at 64 bits for realistic timestamps, and the
source performs no wrapping arithmetic on them). Fallible filesystem
calls are modelled as oracle functions returning `Option`/`Bool`.
-/

namespace TailscaleDrive

/-- `SyncProject` from `app_state.rs` / `status.rs`: a tracked mirror
relationship with a watermark `last_synced` (unix seconds). -/
structure SyncProject where
  id : String
  local_path : String
  remote_path : String
  last_synced : Nat
  paused : Bool
deriving Repr, DecidableEq

/-- Body of `POST /sync/ack` (`SyncAckRequest` in `status.rs`). -/
structure SyncAckRequest where
  id : String
  timestamp : Nat
deriving Repr, DecidableEq

/-- `projects.iter_mut().find(|p| p.id == body.id)` followed by
`project.last_synced = body.timestamp`: update the first project whose
id matches, returning `none` when no project matches. -/
def ackUpdate : List SyncProject → SyncAckRequest → Option (List SyncProject)
  | [], _ => none
  | p :: rest, body =>
    if p.id = body.id then
      some ({ p with last_synced := body.timestamp } :: rest)
    else
      (ackUpdate rest body).map (fun tail => p :: tail)

/-- `sync_ack` (`status.rs` 437-449): on a matching id, set that
project's `last_synced` to the request timestamp, persist, and return
200; otherwise leave the table alone and return 404.  Result:
(new table, HTTP status, whether `save_sync_projects` ran). -/
def sync_ack (projects : List SyncProject) (body : SyncAckRequest) :
    List SyncProject × Nat × Bool :=
  match ackUpdate projects body with
  | some updated => (updated, 200, true)
  | none => (projects, 404, false)

/-- `sync_delete_project` (`status.rs` 376-389): `retain(|p| p.id != id)`;
404 (no persist) when the length did not change, else persist and 200. -/
def sync_delete_project (projects : List SyncProject) (id : String) :
    List SyncProject × Nat × Bool :=
  let remaining := projects.filter (fun p => p.id ≠ id)
  if remaining.length = projects.length then
    (remaining, 404, false)
  else
    (remaining, 200, true)

/-- Body of `POST /sync/projects` (`CreateSyncProjectRequest`). -/
structure CreateSyncProjectRequest where
  local_path : String
  remote_path : String
deriving Repr, DecidableEq

/-- `sync_create_project` (`status.rs` 356-373): build the project with
`last_synced = unix_timestamp()` (the parameter `now`) and
`paused = false`, push it onto the table, persist, return it.  The
random id is a parameter (`rand_id` hashes the clock and thread id). -/
def sync_create_project (now : Nat) (newId : String)
    (projects : List SyncProject) (body : CreateSyncProjectRequest) :
    List SyncProject × SyncProject :=
  let project : SyncProject :=
    { id := newId
      local_path := body.local_path
      remote_path := body.remote_path
      last_synced := now
      paused := false }
  (projects ++ [project], project)

/-- `SyncChangeResponse` returned by `GET /sync/check`. -/
structure SyncChangeResponse where
  id : String
  remote_path : String
  local_path : String
  new_modified : Nat
deriving Repr, DecidableEq

/-- The per-project body of the `sync_check` loop (`status.rs` 405-425):
skip paused projects, read the local file's mtime (the oracle `fs`
returns `none` when `fs::metadata` fails), and report a change exactly
when the mtime is strictly greater than the watermark. -/
def checkProject (fs : String → Option Nat) (project : SyncProject) :
    Option SyncChangeResponse :=
  if project.paused then none
  else
    match fs project.local_path with
    | some modified =>
      if project.last_synced < modified then
        some { id := project.id
               remote_path := project.remote_path
               local_path := project.local_path
               new_modified := modified }
      else none
    | none => none

/-- `sync_check` (`status.rs` 400-428): the handler holds the table lock
only to read; it returns the table unchanged together with the list of
changes, in table order. -/
def sync_check (fs : String → Option Nat) (projects : List SyncProject) :
    List SyncProject × List SyncChangeResponse :=
  (projects, projects.filterMap (checkProject fs))

-- ── Paths and PUT /upload/{*path} ──────────────────────────────────────

/-- `std::path::PathBuf`, modelled as an absolute-flag plus the list of
normal components (no component is empty). -/
structure FilePath where
  absolute : Bool
  segments : List String
deriving Repr, DecidableEq

/-- `PathBuf::join`: joining an absolute path replaces the receiver
entirely; joining a relative path appends its components. -/
def pathJoin (base p : FilePath) : FilePath :=
  if p.absolute then p
  else { absolute := base.absolute, segments := base.segments ++ p.segments }

/-- One step of lexical path resolution: `.` is dropped, `..` removes
the last component kept so far, anything else is appended. -/
def resolveStep (acc : List String) (s : String) : List String :=
  if s = "." then acc
  else if s = ".." then acc.dropLast
  else acc.concat s

/-- Lexical path resolution: drop `.` components and let `..` remove the
preceding component (at the root, `/..` stays the root). -/
def resolveSegs (segs : List String) : List String :=
  segs.foldl resolveStep []

/-- `dest` resolves to a location under `root`: same absoluteness and the
resolved components of `root` are an initial run of those of `dest`. -/
def underRoot (root dest : FilePath) : Bool :=
  root.absolute = dest.absolute ∧
    resolveSegs root.segments =
      (resolveSegs dest.segments).take (resolveSegs root.segments).length

/-- `PathBuf::parent` of the upload destination, and the `upload_handler`
body (`status.rs` 320-337): `dest = PathBuf::from(home).join(file_path)`;
create the parent directory tree (500 on failure), write the body
(500 on failure), else 200.  `mkdirOk`/`writeOk` are oracles for the two
filesystem calls; `parent` mirrors `Path::parent`, which strips the last
component (and is `None` for a bare root or an empty path, in which case
the `if let` skips `create_dir_all`). -/
def pathParent (p : FilePath) : Option FilePath :=
  match p.segments with
  | [] => none
  | _ :: _ => some { absolute := p.absolute, segments := p.segments.dropLast }

/-- The destination `upload_handler` writes to. -/
def upload_dest (home req : FilePath) : FilePath :=
  pathJoin home req

/-- `upload_handler` (`status.rs` 320-337); returns the HTTP status and
the path written when the write happened. -/
def upload_handler (mkdirOk : FilePath → Bool) (writeOk : FilePath → Bool)
    (home req : FilePath) : Nat × Option FilePath :=
  let dest := upload_dest home req
  match pathParent dest with
  | some parent =>
    if mkdirOk parent then
      if writeOk dest then (200, some dest) else (500, none)
    else (500, none)
  | none =>
    if writeOk dest then (200, some dest) else (500, none)

-- ── GET /browse ────────────────────────────────────────────────────────

/-- `RemoteFileInfo` serialised by `browse_handler`. -/
structure RemoteFileInfo where
  name : String
  is_dir : Bool
  size : Int
  modified : Nat
deriving Repr, DecidableEq

/-- The metadata of one directory entry (entries whose `metadata()` call
fails are skipped by the handler, hence the `Option` in `browseDir`). -/
structure EntryMeta where
  is_dir : Bool
  size : Int
  modified : Nat
deriving Repr, DecidableEq

/-- One listing returned by `read_dir`: file names with their metadata
(`none` when `entry.metadata()` errors). -/
abbrev DirListing := List (String × Option EntryMeta)

/-- `files.sort_by(|a, b| a.name.cmp(&b.name))`: a stable sort by raw
name; Rust's stable `sort_by` and insertion sort agree on every list. -/
def sortByName (files : List RemoteFileInfo) : List RemoteFileInfo :=
  List.insertionSort (fun a b => a.name ≤ b.name) files

/-- The filter/translate step of `browse_handler`'s loop: hidden entries
(leading `.`) and entries without readable metadata are skipped. -/
def browseEntries (entries : DirListing) : List RemoteFileInfo :=
  entries.filterMap
    (fun e =>
      if e.1.startsWith "." then none
      else
        e.2.map (fun m =>
          { name := e.1, is_dir := m.is_dir, size := m.size
            modified := m.modified }))

/-- `browse_handler` (`status.rs` 238-276): the listed directory defaults
to `$HOME`; 404 when the path does not exist or is not a directory
(`isDir` oracle); when `read_dir` itself fails (`readDir` gives `none`)
the listing is empty; otherwise filter and sort by name. -/
def browse_handler (home : String) (pathParam : Option String)
    (isDir : String → Bool) (readDir : String → Option DirListing) :
    Except Nat (List RemoteFileInfo) :=
  let base := pathParam.getD home
  if isDir base then
    match readDir base with
    | some entries => .ok (sortByName (browseEntries entries))
    | none => .ok []
  else
    .error 404

-- ── Transfer backend: fetch_status (tailscale.rs 329-377) ──────────────

/-- `PeerStatus` parsed from the control API's status document
(`tailscale.rs` 59-73); `TailscaleIPs` and `OS` are optional there. -/
structure PeerStatus where
  id : String
  hostname : String
  dns_name : String
  tailscale_ips : Option (List String)
  online : Bool
  os : Option String
deriving Repr, DecidableEq

/-- `TailscaleStatus` (`tailscale.rs` 48-57): the self node and the peer
map; the `HashMap` is modelled as an association list in the iteration
order the loop happens to see. -/
structure TailscaleStatus where
  self_node : Option PeerStatus
  peers : Option (List (String × PeerStatus))
deriving Repr, DecidableEq

/-- `TailscalePeer` (`app_state.rs` 9-18). -/
structure TailscalePeer where
  id : String
  hostname : String
  dns_name : String
  ip_addresses : List String
  online : Bool
  is_self : Bool
  os : String
  can_receive_files : Bool
deriving Repr, DecidableEq

/-- How `fetch_status` translates the self node (`tailscale.rs` 344-355):
always `online = true`, `is_self = true`. -/
def mkSelfPeer (s : PeerStatus) : TailscalePeer :=
  { id := s.id, hostname := s.hostname, dns_name := s.dns_name
    ip_addresses := s.tailscale_ips.getD []
    online := true, is_self := true
    os := s.os.getD "", can_receive_files := true }

/-- How `fetch_status` translates an ordinary peer (`tailscale.rs`
358-371): `online` as reported, `is_self = false`. -/
def mkOtherPeer (p : PeerStatus) : TailscalePeer :=
  { id := p.id, hostname := p.hostname, dns_name := p.dns_name
    ip_addresses := p.tailscale_ips.getD []
    online := p.online, is_self := false
    os := p.os.getD "", can_receive_files := true }

/-- `fetch_status` (`tailscale.rs` 329-377): push the self node (when
present), then every peer of the map, then keep only the entries whose
`os` is non-empty (`peers_with_os`). -/
def fetch_status (status : TailscaleStatus) : List TailscalePeer :=
  let selfPart :=
    match status.self_node with
    | some s => [mkSelfPeer s]
    | none => []
  let peerPart :=
    match status.peers with
    | some m => m.map (fun kv => mkOtherPeer kv.2)
    | none => []
  (selfPart ++ peerPart).filter (fun p => p.os ≠ "")

-- ── Mobile client: events and process_events ───────────────────────────

/-- `PeerInfo` (`tailscale_client.rs` 32-40). -/
structure PeerInfo where
  id : String
  hostname : String
  dns_name : String
  ip_addresses : List String
  online : Bool
  os : String
deriving Repr, DecidableEq

/-- `SentFileInfo` (`tailscale_client.rs` 8-16). -/
structure SentFileInfo where
  name : String
  peer_id : String
  size : Nat
  timestamp : Nat
  succeeded : Bool
  sending : Bool
deriving Repr, DecidableEq

/-- `SyncChange` (`tailscale_client.rs` 51-57). -/
structure SyncChange where
  id : String
  remote_path : String
  local_path : String
  new_modified : Nat
deriving Repr, DecidableEq

/-- `WaitingFile` (`tailscale_client.rs` 18-22). -/
structure WaitingFile where
  name : String
  size : Nat
deriving Repr, DecidableEq

/-- `RemoteFile` (`tailscale_client.rs` 24-30). -/
structure RemoteFile where
  name : String
  is_dir : Bool
  size : Int
  modified : Nat
deriving Repr, DecidableEq

/-- `ClientEvent` (`tailscale_client.rs` 61-78).  File payloads are kept
as byte lists (`List Nat`). -/
inductive ClientEvent where
  | statusUpdate (connected : Bool) (last_sent : Option SentFileInfo)
      (last_received_file : Option String) (server_cwd : Option String)
  | filesUpdate (files : List WaitingFile)
  | browseUpdate (files : List RemoteFile)
  | downloadComplete (filename : String) (data : List Nat)
  | pullComplete (filename : String) (data : List Nat)
  | peersUpdate (peers : List PeerInfo)
  | syncProjectsUpdate (projects : List SyncProject)
  | syncChangesAvailable (changes : List SyncChange)
  | uploadComplete (remote_path : String)
  | syncPullComplete (project_id : String) (filename : String)
  | error (msg : String)
deriving Repr, DecidableEq

/-- The fields of `TailscaleClient` (`tailscale_client.rs` 96-121) that
`process_events` mutates. -/
structure ClientState where
  connected : Bool
  status_message : String
  last_sent : Option SentFileInfo
  last_received_file : Option String
  waiting_files : List WaitingFile
  remote_files : List RemoteFile
  download_status : Option String
  browse_status : Option String
  server_cwd : Option String
  save_directory : Option String
  pending_share_paths : List String
  peers : List PeerInfo
  sync_projects : List SyncProject
  sync_status : Option String
  pending_sync_notifications : List (String × String)
deriving Repr, DecidableEq

/-- One arm of `TailscaleClient::process_events`'s match
(`tailscale_client.rs` 156-288).  `writeOk path` is the oracle for
`std::fs::write(path, data)`; status strings whose exact formatted text
is irrelevant to the claims are reproduced only up to their branch (the
format arguments are dropped, keeping the branch structure intact). -/
def processEvent (writeOk : String → Bool) (s : ClientState) :
    ClientEvent → ClientState
  | .statusUpdate connected last_sent last_received_file server_cwd =>
    let was_connected := s.connected
    let s1 := { s with
      connected := connected
      last_sent := last_sent
      last_received_file := last_received_file
      server_cwd := if server_cwd.isSome then server_cwd else s.server_cwd
      status_message :=
        if connected then "Connected to server" else "Cannot reach server" }
    -- lose connection: mark all cached peers offline instead of wiping
    if was_connected ∧ ¬connected then
      { s1 with peers := s1.peers.map (fun p => { p with online := false }) }
    else s1
  | .filesUpdate files => { s with waiting_files := files }
  | .browseUpdate files =>
    { s with browse_status := some "Found items", remote_files := files }
  | .downloadComplete filename _ =>
    match s.save_directory with
    | some dir =>
      let path := dir ++ "/" ++ filename
      if writeOk path then
        { s with download_status := some "saved"
                 pending_share_paths := s.pending_share_paths ++ [path] }
      else
        { s with download_status := some "failed" }
    | none => { s with download_status := some "no save directory" }
  | .pullComplete filename _ =>
    match s.save_directory with
    | some dir =>
      let path := dir ++ "/" ++ filename
      if writeOk path then
        { s with browse_status := some "saved"
                 pending_share_paths := s.pending_share_paths ++ [path] }
      else
        { s with browse_status := some "failed" }
    | none => { s with browse_status := some "no save directory" }
  | .peersUpdate peers => { s with peers := peers }
  | .syncProjectsUpdate projects => { s with sync_projects := projects }
  | .syncChangesAvailable changes =>
    if changes ≠ [] then { s with sync_status := some "files updated" }
    else s
  | .uploadComplete _ => { s with sync_status := some "uploaded" }
  | .syncPullComplete _ filename =>
    { s with sync_status := some "synced"
             pending_sync_notifications :=
               s.pending_sync_notifications ++
                 [("File Synced", "Updated: " ++ filename)] }
  | .error _ => { s with download_status := some "error" }

-- ── Renderer: received-file notification detection ─────────────────────

/-- The two renderer fields the notification-detection block touches
(`renderer.rs` 63-64, 410-423). -/
structure NotifState where
  last_known_received : Option String
  pending_notifications : List (String × String)
deriving Repr, DecidableEq

/-- The renderer's initial state (`renderer.rs` 173-174): no known
received file, empty queue. -/
def initialNotifState : NotifState :=
  { last_known_received := none, pending_notifications := [] }

/-- The notification-detection block of `Renderer::render` (`renderer.rs`
410-423) for one status snapshot's `last_received_file`: when the value
changed and is non-`None`, push a notification only if a prior value was
known (suppressing the initial load); then remember the new value. -/
def notifStep (st : NotifState) (snapshot : Option String) : NotifState :=
  if snapshot ≠ st.last_known_received then
    let pending :=
      match snapshot with
      | some name =>
        if st.last_known_received.isSome then
          st.pending_notifications ++
            [("File Ready", "Tap to download: " ++ name)]
        else st.pending_notifications
      | none => st.pending_notifications
    { last_known_received := snapshot, pending_notifications := pending }
  else st

/-- Folding `notifStep` over a sequence of snapshots. -/
def notifRun (st : NotifState) (snapshots : List (Option String)) :
    NotifState :=
  snapshots.foldl notifStep st

-- ── Poll loop: auto-sync pull direction (tailscale_client.rs 564-586) ──

/-- The acks issued by the auto-sync pull block of one poll tick: for
each change from `sync/check`, pull the desktop file
(`pull change.local_path`, `none` on HTTP failure), write it to the
mobile-side path `change.remote_path` (`writeOk` oracle), and only on a
successful write send `sync/ack` with `change.new_modified`.  Returns
the list of `(id, timestamp)` acks actually sent, in order. -/
def autoSyncPullAcks (pull : String → Option (String × List Nat))
    (writeOk : String → List Nat → Bool) (changes : List SyncChange) :
    List (String × Nat) :=
  changes.filterMap
    (fun change =>
      match pull change.local_path with
      | some fd =>
        if writeOk change.remote_path fd.2 then
          some (change.id, change.new_modified)
        else none
      | none => none)

-- ── Theorems ───────────────────────────────────────────────────────────

/-- The table `sync_ack` returns is `ackUpdate`'s result, or the old
table when no project matched. -/
theorem sync_ack_fst (projects : List SyncProject) (body : SyncAckRequest) :
    (sync_ack projects body).1 = (ackUpdate projects body).getD projects := by
  unfold sync_ack
  cases ackUpdate projects body <;> rfl

theorem ackUpdate_cons (p : SyncProject) (rest : List SyncProject)
    (body : SyncAckRequest) :
    ackUpdate (p :: rest) body =
      if p.id = body.id then
        some ({ p with last_synced := body.timestamp } :: rest)
      else
        (ackUpdate rest body).map (fun tail => p :: tail) := rfl

theorem ackUpdate_getD_cons_ne (p : SyncProject) (rest : List SyncProject)
    (body : SyncAckRequest) (hid : ¬p.id = body.id) :
    (ackUpdate (p :: rest) body).getD (p :: rest) =
      p :: ((ackUpdate rest body).getD rest) := by
  rw [ackUpdate_cons, if_neg hid]
  cases ackUpdate rest body <;> rfl

theorem ackUpdate_mono (body : SyncAckRequest) :
    ∀ ps : List SyncProject,
      (∀ p ∈ ps, p.id = body.id → p.last_synced ≤ body.timestamp) →
      List.Forall₂ (fun p q => p.last_synced ≤ q.last_synced) ps
        ((ackUpdate ps body).getD ps)
  | [], _ => by simp [ackUpdate]
  | p :: rest, h => by
    by_cases hid : p.id = body.id
    · have hle : p.last_synced ≤ body.timestamp :=
        h p (List.mem_cons_self p rest) hid
      unfold ackUpdate
      rw [if_pos hid]
      exact List.Forall₂.cons hle
        ((List.forall₂_same).2 (fun q _ => le_refl q.last_synced))
    · rw [ackUpdate_getD_cons_ne p rest body hid]
      exact List.Forall₂.cons (le_refl p.last_synced)
        (ackUpdate_mono body rest
          (fun q hq hq' => h q (List.mem_cons_of_mem p hq) hq'))

/-- C1 counterexample: the claim says no handled ack ever leaves
`last_synced` smaller than before, but `sync_ack` assigns the request's
timestamp unconditionally — acking the single project (watermark 5) with
timestamp 3 is handled (status 200) and moves the watermark down to 3. -/
theorem sync_ack_regresses_watermark :
    (sync_ack
        [{ id := "p", local_path := "a", remote_path := "b",
           last_synced := 5, paused := false }]
        { id := "p", timestamp := 3 }) =
      ([{ id := "p", local_path := "a", remote_path := "b",
          last_synced := 3, paused := false }], 200, true) ∧ (3 : Nat) < 5 := by
  exact ⟨rfl, by decide⟩

/-- C1 (amended): `sync_ack` sets the matched project's `last_synced`
to the request's timestamp unconditionally; across one handled ack the
watermark of every project is non-decreasing provided the ack's
timestamp is at least the current watermark of every project carrying
the acked id (as holds for acks derived from `sync/check`, whose
`new_modified` strictly exceeds the watermark).  Stated pointwise over
the table before and after the ack. -/
theorem sync_ack_monotone (projects : List SyncProject)
    (body : SyncAckRequest)
    (h : ∀ p ∈ projects, p.id = body.id → p.last_synced ≤ body.timestamp) :
    List.Forall₂ (fun p q => p.last_synced ≤ q.last_synced) projects
      (sync_ack projects body).1 := by
  rw [sync_ack_fst]
  exact ackUpdate_mono body projects h

/-- C1 witness: the amended monotonicity theorem applied to a concrete
table and an ack whose timestamp 7 exceeds the watermark 5. -/
theorem sync_ack_monotone_witness :
    List.Forall₂ (fun p q : SyncProject => p.last_synced ≤ q.last_synced)
      [{ id := "p", local_path := "a", remote_path := "b",
         last_synced := 5, paused := false }]
      ((sync_ack
          [{ id := "p", local_path := "a", remote_path := "b",
             last_synced := 5, paused := false }]
          { id := "p", timestamp := 7 }).1) :=
  sync_ack_monotone
    [{ id := "p", local_path := "a", remote_path := "b",
       last_synced := 5, paused := false }]
    { id := "p", timestamp := 7 }
    (by decide)

theorem checkProject_eq_some (fs : String → Option Nat) (p : SyncProject)
    (c : SyncChangeResponse) :
    checkProject fs p = some c ↔
      p.paused = false ∧
        ∃ m, fs p.local_path = some m ∧ p.last_synced < m ∧
          c = { id := p.id, remote_path := p.remote_path,
                local_path := p.local_path, new_modified := m } := by
  cases hpaused : p.paused
  · cases hfs : fs p.local_path with
    | none => simp [checkProject, hpaused, hfs]
    | some m =>
      by_cases hlt : p.last_synced < m <;>
        simp [checkProject, hpaused, hfs, hlt, eq_comm]
  · simp [checkProject, hpaused]

/-- Membership characterisation of the `sync_check` change list (shared
by the `/sync/check` and `/sync/projects` theorems). -/
theorem sync_check_mem (fs : String → Option Nat)
    (projects : List SyncProject) (c : SyncChangeResponse) :
    c ∈ (sync_check fs projects).2 ↔
      ∃ p ∈ projects, p.paused = false ∧
        ∃ m, fs p.local_path = some m ∧ p.last_synced < m ∧
          c = { id := p.id, remote_path := p.remote_path,
                local_path := p.local_path, new_modified := m } := by
  show c ∈ projects.filterMap (checkProject fs) ↔ _
  rw [List.mem_filterMap]
  constructor
  · rintro ⟨p, hp, hc⟩
    exact ⟨p, hp, (checkProject_eq_some fs p c).1 hc⟩
  · rintro ⟨p, hp, hrest⟩
    exact ⟨p, hp, (checkProject_eq_some fs p c).2 hrest⟩

/-- C3: `GET /sync/check` leaves the table untouched and returns exactly
the non-paused projects whose local file's observed mtime strictly
exceeds the watermark, each change carrying that mtime as
`new_modified` (the watermark itself advances only via an explicit
ack). -/
theorem sync_check_spec (fs : String → Option Nat)
    (projects : List SyncProject) :
    (sync_check fs projects).1 = projects ∧
    ∀ c, c ∈ (sync_check fs projects).2 ↔
      ∃ p ∈ projects, p.paused = false ∧
        ∃ m, fs p.local_path = some m ∧ p.last_synced < m ∧
          c = { id := p.id, remote_path := p.remote_path,
                local_path := p.local_path, new_modified := m } :=
  ⟨rfl, sync_check_mem fs projects⟩

theorem filter_length_ne_of_mem {α : Type} (pred : α → Bool) :
    ∀ (l : List α), (∃ x ∈ l, pred x = false) →
      (l.filter pred).length ≠ l.length
  | [], h => by simp at h
  | x :: rest, h => by
    rcases h with ⟨y, hy, hpy⟩
    rcases List.mem_cons.1 hy with rfl | hyr
    · have hle := List.length_filter_le pred rest
      simp only [List.filter_cons, hpy, Bool.false_eq_true, if_false,
        List.length_cons]
      omega
    · cases hx : pred x
      · have hle := List.length_filter_le pred rest
        simp only [List.filter_cons, hx, Bool.false_eq_true, if_false,
          List.length_cons]
        omega
      · have hrec := filter_length_ne_of_mem pred rest ⟨y, hyr, hpy⟩
        intro heq
        rw [List.filter_cons, hx, if_pos rfl] at heq
        simp only [List.length_cons] at heq
        exact hrec (by omega)

/-- Resolving components that contain no `..` can only extend what was
resolved so far. -/
theorem foldl_resolveStep_extends :
    ∀ (segs acc : List String), ".." ∉ segs →
      ∃ extra, List.foldl resolveStep acc segs = acc ++ extra
  | [], acc, _ => ⟨[], by simp⟩
  | s :: rest, acc, h => by
    have hs : s ≠ ".." := fun hs => h (hs ▸ List.mem_cons_self s rest)
    have hrest : ".." ∉ rest := fun hr => h (List.mem_cons_of_mem s hr)
    by_cases hdot : s = "."
    · rcases foldl_resolveStep_extends rest acc hrest with ⟨extra, hex⟩
      refine ⟨extra, ?_⟩
      simpa [List.foldl_cons, resolveStep, hdot] using hex
    · rcases foldl_resolveStep_extends rest (acc ++ [s]) hrest with
        ⟨extra, hex⟩
      refine ⟨s :: extra, ?_⟩
      rw [List.foldl_cons]
      have hstep : resolveStep acc s = acc ++ [s] := by
        simp [resolveStep, hdot, hs]
      rw [hstep, hex, List.append_assoc]
      rfl

/-- C2 counterexample: the claim says the upload destination never
resolves outside the server's home directory, but a request path
containing `..` does: uploading to `../secret` from home `/home/user`
writes `/home/secret` (200 on filesystem success), outside the root. -/
theorem upload_handler_escapes_root :
    underRoot { absolute := true, segments := ["home", "user"] }
        (upload_dest { absolute := true, segments := ["home", "user"] }
          { absolute := false, segments := ["..", "secret"] }) = false ∧
    (upload_handler (fun _ => true) (fun _ => true)
        { absolute := true, segments := ["home", "user"] }
        { absolute := false, segments := ["..", "secret"] }).1 = 200 := by
  constructor
  · rfl
  · rfl

/-- C2 (amended): the upload destination is the fixed root (`$HOME`)
joined with the request's path segment; it stays under the root whenever
the request path is relative and free of `..` components, but a `..`
component (or an absolute request path, which `PathBuf::join` lets
replace the root) can resolve outside the root.  Parent directories are
created as needed and the handler responds 200 exactly when the
directory creation and the file write both succeed. -/
theorem upload_handler_spec (mkdirOk writeOk : FilePath → Bool)
    (home req : FilePath) :
    upload_dest home req = pathJoin home req ∧
    (req.absolute = false → ".." ∉ req.segments →
      underRoot home (upload_dest home req) = true) ∧
    ((upload_handler mkdirOk writeOk home req).1 = 200 ↔
      (pathParent (upload_dest home req)).all mkdirOk = true ∧
        writeOk (upload_dest home req) = true) ∧
    ((upload_handler mkdirOk writeOk home req).1 = 200 →
      (upload_handler mkdirOk writeOk home req).2 =
        some (upload_dest home req)) := by
  refine ⟨rfl, ?_, ?_, ?_⟩
  · intro habs hnd
    have hdest : upload_dest home req =
        { absolute := home.absolute,
          segments := home.segments ++ req.segments } := by
      simp [upload_dest, pathJoin, habs]
    rw [hdest]
    have hres : resolveSegs (home.segments ++ req.segments) =
        List.foldl resolveStep (resolveSegs home.segments) req.segments := by
      simp [resolveSegs, List.foldl_append]
    rcases foldl_resolveStep_extends req.segments
        (resolveSegs home.segments) hnd with ⟨extra, hex⟩
    simp only [underRoot, hres, hex]
    simp [List.take_left]
  · unfold upload_handler
    cases hpar : pathParent (upload_dest home req) with
    | none =>
      cases hw : writeOk (upload_dest home req) <;>
        simp [hpar, hw, Option.all]
    | some parent =>
      cases hmk : mkdirOk parent <;>
        cases hw : writeOk (upload_dest home req) <;>
          simp [hpar, hmk, hw, Option.all]
  · unfold upload_handler
    cases hpar : pathParent (upload_dest home req) with
    | none =>
      cases hw : writeOk (upload_dest home req) <;> simp [hpar, hw]
    | some parent =>
      cases hmk : mkdirOk parent <;>
        cases hw : writeOk (upload_dest home req) <;> simp [hpar, hmk, hw]

/-- C8: deleting an unknown sync-project id returns 404 and leaves the
table unchanged without persisting; deleting a present id removes the
matching project(s), persists, and returns 200. -/
theorem sync_delete_project_spec (projects : List SyncProject)
    (id : String) :
    ((∀ p ∈ projects, p.id ≠ id) →
        sync_delete_project projects id = (projects, 404, false)) ∧
    ((∃ p ∈ projects, p.id = id) →
        sync_delete_project projects id =
          (projects.filter (fun p => p.id ≠ id), 200, true) ∧
        (projects.filter (fun p => p.id ≠ id)).length < projects.length) := by
  constructor
  · intro h
    have hfil : projects.filter (fun p => decide (p.id ≠ id)) = projects :=
      List.filter_eq_self.2 (fun p hp => by simpa using h p hp)
    unfold sync_delete_project
    rw [hfil, if_pos rfl]
  · rintro ⟨p, hp, hpid⟩
    have hne : (projects.filter (fun q => decide (q.id ≠ id))).length ≠
        projects.length :=
      filter_length_ne_of_mem _ projects ⟨p, hp, by simp [hpid]⟩
    have hlt : (projects.filter (fun q => decide (q.id ≠ id))).length <
        projects.length :=
      lt_of_le_of_ne (List.length_filter_le _ projects) hne
    constructor
    · unfold sync_delete_project
      rw [if_neg hne]
    · exact hlt

/-- C10 (implicit): `POST /sync/projects` creates the project with
`paused = false` and `last_synced` equal to the server's current unix
time `now`; hence, while the watermark still equals `now`, a local file
whose observed mtime is at most `now` is never reported as a change by
`GET /sync/check` for the fresh id. -/
theorem sync_create_project_spec (now : Nat) (newId : String)
    (projects : List SyncProject) (body : CreateSyncProjectRequest)
    (fs : String → Option Nat) :
    (sync_create_project now newId projects body).2.paused = false ∧
    (sync_create_project now newId projects body).2.last_synced = now ∧
    (sync_create_project now newId projects body).2.id = newId ∧
    (sync_create_project now newId projects body).1 =
      projects ++ [(sync_create_project now newId projects body).2] ∧
    ((∀ p ∈ projects, p.id ≠ newId) →
      (∀ m, fs body.local_path = some m → m ≤ now) →
      ∀ c ∈ (sync_check fs
              (sync_create_project now newId projects body).1).2,
        c.id ≠ newId) := by
  refine ⟨rfl, rfl, rfl, rfl, ?_⟩
  intro hfresh hmt c hc
  have hmem := (sync_check_mem fs
      (sync_create_project now newId projects body).1 c).1 hc
  rcases hmem with ⟨p, hp, -, m, hm, hlt, hcform⟩
  rcases List.mem_append.1 hp with hp' | hp'
  · intro hcid
    exact hfresh p hp' (by rw [hcform] at hcid; exact hcid)
  · have hpe : p = (sync_create_project now newId projects body).2 := by
      simpa using hp'
    subst hpe
    have hle : m ≤ now := hmt m hm
    have : now < m := hlt
    omega

/-- C4: starting from the renderer's initial state, the snapshot
sequence `None, "a", "a", "b"` enqueues exactly one notification (for
`"b"`; the first transition from `None` is suppressed because no prior
value was known); moreover a repeated identical snapshot is a no-op
(never enqueues a duplicate), and a snapshot seen while no prior value
is known never enqueues anything. -/
theorem notification_at_most_once :
    (notifRun initialNotifState
        [none, some "a", some "a", some "b"]).pending_notifications =
      [("File Ready", "Tap to download: b")] ∧
    (∀ st snap, notifStep (notifStep st snap) snap = notifStep st snap) ∧
    (∀ st snap, st.last_known_received = none →
      (notifStep st snap).pending_notifications =
        st.pending_notifications) := by
  refine ⟨rfl, ?_, ?_⟩
  · intro st snap
    by_cases h : snap = st.last_known_received
    · simp [notifStep, h]
    · have h1 : notifStep st snap =
          { last_known_received := snap
            pending_notifications := (notifStep st snap).pending_notifications } := by
        simp [notifStep, h]
      rw [h1]
      simp [notifStep]
  · intro st snap hnone
    by_cases h : snap = st.last_known_received
    · simp [notifStep, h]
    · cases snap with
      | none => simp [notifStep, h]
      | some name => simp [notifStep, h, hnone]

/-- C7: during a poll tick's pull-direction pass, an ack `(id, ts)` is
sent exactly for those `sync/check` changes whose desktop file was
successfully pulled and whose content was successfully written to the
mobile-side path — `ts` being that change's `new_modified`; a failed
pull or a failed write yields no ack for that change, leaving it
pending for the next tick. -/
theorem auto_sync_pull_acks_spec (pull : String → Option (String × List Nat))
    (writeOk : String → List Nat → Bool) (changes : List SyncChange) :
    ∀ a, a ∈ autoSyncPullAcks pull writeOk changes ↔
      ∃ c ∈ changes, a = (c.id, c.new_modified) ∧
        ∃ fd, pull c.local_path = some fd ∧
          writeOk c.remote_path fd.2 = true := by
  intro a
  unfold autoSyncPullAcks
  rw [List.mem_filterMap]
  constructor
  · rintro ⟨c, hc, hsome⟩
    cases hp : pull c.local_path with
    | none => simp [hp] at hsome
    | some fd =>
      cases hw : writeOk c.remote_path fd.2 with
      | false => simp [hp, hw] at hsome
      | true =>
        simp [hp, hw] at hsome
        exact ⟨c, hc, hsome.symm, fd, hp, hw⟩
  · rintro ⟨c, hc, ha, fd, hp, hw⟩
    refine ⟨c, hc, ?_⟩
    simp [hp, hw, ha]

/-- C5: processing a status update with `connected = false` from a
connected client keeps the cached peer list's length unchanged and
flips every cached entry's `online` flag to `false`; and no event other
than a successful fresh peer fetch (`PeersUpdate`) ever changes the
peer list's length — the cache is only replaced wholesale by such a
fetch. -/
theorem peer_cache_persistence (writeOk : String → Bool) (s : ClientState)
    (ls : Option SentFileInfo) (lr : Option String) (cwd : Option String)
    (hconn : s.connected = true) :
    ((processEvent writeOk s
        (.statusUpdate false ls lr cwd)).peers.length = s.peers.length) ∧
    (∀ p ∈ (processEvent writeOk s (.statusUpdate false ls lr cwd)).peers,
        p.online = false) ∧
    (∀ ev : ClientEvent, (∀ ps, ev ≠ .peersUpdate ps) →
        (processEvent writeOk s ev).peers.length = s.peers.length) := by
  refine ⟨?_, ?_, ?_⟩
  · simp [processEvent, hconn]
  · intro p hp
    simp only [processEvent, hconn] at hp
    simp at hp
    rcases hp with ⟨q, hq, rfl⟩
    rfl
  · intro ev hev
    cases ev with
    | statusUpdate c l r w =>
      cases c
      · simp [processEvent, hconn]
      · simp [processEvent]
    | filesUpdate files => rfl
    | browseUpdate files => rfl
    | downloadComplete filename data =>
      cases hd : s.save_directory with
      | none => simp [processEvent, hd]
      | some dir =>
        cases hw : writeOk (dir ++ "/" ++ filename) <;>
          simp [processEvent, hd, hw]
    | pullComplete filename data =>
      cases hd : s.save_directory with
      | none => simp [processEvent, hd]
      | some dir =>
        cases hw : writeOk (dir ++ "/" ++ filename) <;>
          simp [processEvent, hd, hw]
    | peersUpdate ps => exact absurd rfl (hev ps)
    | syncProjectsUpdate projects => rfl
    | syncChangesAvailable changes =>
      by_cases hc : changes = [] <;> simp [processEvent, hc]
    | uploadComplete rp => rfl
    | syncPullComplete pid fn => rfl
    | error msg => rfl

/-- C5 witness: the persistence theorem at a concrete connected client
caching two peers. -/
theorem peer_cache_persistence_witness :
    ((processEvent (fun _ => true)
        { connected := true, status_message := "", last_sent := none
          last_received_file := none, waiting_files := []
          remote_files := [], download_status := none
          browse_status := none, server_cwd := none
          save_directory := none, pending_share_paths := []
          peers := [{ id := "1", hostname := "h1", dns_name := "d1"
                      ip_addresses := [], online := true, os := "macOS" },
                    { id := "2", hostname := "h2", dns_name := "d2"
                      ip_addresses := [], online := false, os := "iOS" }]
          sync_projects := [], sync_status := none
          pending_sync_notifications := [] }
        (.statusUpdate false none none none)).peers.length =
      ([{ id := "1", hostname := "h1", dns_name := "d1"
          ip_addresses := [], online := true, os := "macOS" },
        { id := "2", hostname := "h2", dns_name := "d2"
          ip_addresses := [], online := false, os := "iOS" }] :
            List PeerInfo).length) ∧
    (∀ p ∈ (processEvent (fun _ => true)
        { connected := true, status_message := "", last_sent := none
          last_received_file := none, waiting_files := []
          remote_files := [], download_status := none
          browse_status := none, server_cwd := none
          save_directory := none, pending_share_paths := []
          peers := [{ id := "1", hostname := "h1", dns_name := "d1"
                      ip_addresses := [], online := true, os := "macOS" },
                    { id := "2", hostname := "h2", dns_name := "d2"
                      ip_addresses := [], online := false, os := "iOS" }]
          sync_projects := [], sync_status := none
          pending_sync_notifications := [] }
        (.statusUpdate false none none none)).peers, p.online = false) ∧
    (∀ ev : ClientEvent, (∀ ps, ev ≠ .peersUpdate ps) →
        (processEvent (fun _ => true)
          { connected := true, status_message := "", last_sent := none
            last_received_file := none, waiting_files := []
            remote_files := [], download_status := none
            browse_status := none, server_cwd := none
            save_directory := none, pending_share_paths := []
            peers := [{ id := "1", hostname := "h1", dns_name := "d1"
                        ip_addresses := [], online := true, os := "macOS" },
                      { id := "2", hostname := "h2", dns_name := "d2"
                        ip_addresses := [], online := false, os := "iOS" }]
            sync_projects := [], sync_status := none
            pending_sync_notifications := [] } ev).peers.length =
          ([{ id := "1", hostname := "h1", dns_name := "d1"
              ip_addresses := [], online := true, os := "macOS" },
            { id := "2", hostname := "h2", dns_name := "d2"
              ip_addresses := [], online := false, os := "iOS" }] :
                List PeerInfo).length) :=
  peer_cache_persistence (fun _ => true)
    { connected := true, status_message := "", last_sent := none
      last_received_file := none, waiting_files := []
      remote_files := [], download_status := none
      browse_status := none, server_cwd := none
      save_directory := none, pending_share_paths := []
      peers := [{ id := "1", hostname := "h1", dns_name := "d1"
                  ip_addresses := [], online := true, os := "macOS" },
                { id := "2", hostname := "h2", dns_name := "d2"
                  ip_addresses := [], online := false, os := "iOS" }]
      sync_projects := [], sync_status := none
      pending_sync_notifications := [] }
    none none none rfl

/-- C6 counterexample: the claim says the self node is always returned,
but the non-empty-OS filter (`peers_with_os`) applies to the whole list,
self included — a status document whose self node reports no OS yields
an empty peer list. -/
theorem fetch_status_drops_self_without_os :
    fetch_status
      { self_node := some
          { id := "self", hostname := "desk", dns_name := "desk.ts"
            tailscale_ips := none, online := false, os := none }
        peers := none } = [] := rfl

/-- C6 (amended): `fetch_status` returns exactly the status document's
nodes — the self node translated with `online = true`, `is_self = true`,
and every peer of the map translated with its reported `online` flag —
whose OS field is non-empty; a self node reporting an empty (or absent)
OS is dropped by the same filter as any peer, and every returned entry
marked `is_self` has `online = true`. -/
theorem fetch_status_spec (doc : TailscaleStatus) :
    (∀ q, q ∈ fetch_status doc ↔
      (q.os ≠ "" ∧
        ((∃ s, doc.self_node = some s ∧ q = mkSelfPeer s) ∨
         (∃ m kv, doc.peers = some m ∧ kv ∈ m ∧ q = mkOtherPeer kv.2)))) ∧
    (∀ q ∈ fetch_status doc, q.is_self = true → q.online = true) := by
  have hmem : ∀ q, q ∈ fetch_status doc ↔
      (q.os ≠ "" ∧
        ((∃ s, doc.self_node = some s ∧ q = mkSelfPeer s) ∨
         (∃ m kv, doc.peers = some m ∧ kv ∈ m ∧ q = mkOtherPeer kv.2))) := by
    intro q
    unfold fetch_status
    cases hs : doc.self_node with
    | none =>
      cases hp : doc.peers with
      | none => simp
      | some m =>
        simp only [List.nil_append, List.mem_filter, List.mem_map]
        constructor
        · rintro ⟨⟨kv, hkv, rfl⟩, hos⟩
          exact ⟨by simpa using hos, Or.inr ⟨m, kv, rfl, hkv, rfl⟩⟩
        · rintro ⟨hos, hor⟩
          rcases hor with ⟨s, hss, -⟩ | ⟨m', kv, hmm, hkv, rfl⟩
          · exact absurd hss (by simp)
          · obtain rfl : m = m' := by
              have := hmm
              simp at this
              exact this
            exact ⟨⟨kv, hkv, rfl⟩, by simpa using hos⟩
    | some s =>
      cases hp : doc.peers with
      | none =>
        simp only [List.append_nil, List.mem_filter, List.mem_singleton]
        constructor
        · rintro ⟨rfl, hos⟩
          exact ⟨by simpa using hos, Or.inl ⟨s, rfl, rfl⟩⟩
        · rintro ⟨hos, hor⟩
          rcases hor with ⟨s', hss, rfl⟩ | ⟨m, kv, hmm, -, -⟩
          · obtain rfl : s = s' := by
              have := hss
              simp at this
              exact this
            exact ⟨rfl, by simpa using hos⟩
          · exact absurd hmm (by simp)
      | some m =>
        simp only [List.mem_filter, List.mem_append, List.mem_singleton,
          List.mem_map]
        constructor
        · rintro ⟨hin, hos⟩
          rcases hin with rfl | ⟨kv, hkv, rfl⟩
          · exact ⟨by simpa using hos, Or.inl ⟨s, rfl, rfl⟩⟩
          · exact ⟨by simpa using hos, Or.inr ⟨m, kv, rfl, hkv, rfl⟩⟩
        · rintro ⟨hos, hor⟩
          rcases hor with ⟨s', hss, rfl⟩ | ⟨m', kv, hmm, hkv, rfl⟩
          · obtain rfl : s = s' := by
              have := hss
              simp at this
              exact this
            exact ⟨Or.inl rfl, by simpa using hos⟩
          · obtain rfl : m = m' := by
              have := hmm
              simp at this
              exact this
            exact ⟨Or.inr ⟨kv, hkv, rfl⟩, by simpa using hos⟩
  refine ⟨hmem, ?_⟩
  intro q hq hself
  rcases ((hmem q).1 hq).2 with ⟨s, -, rfl⟩ | ⟨m, kv, -, -, rfl⟩
  · rfl
  · exact absurd hself (by simp [mkOtherPeer])

instance : IsTotal RemoteFileInfo (fun a b => a.name ≤ b.name) :=
  ⟨fun a b => le_total a.name b.name⟩

instance : IsTrans RemoteFileInfo (fun a b => a.name ≤ b.name) :=
  ⟨fun _ _ _ h1 h2 => le_trans h1 h2⟩

theorem mem_browseEntries (entries : DirListing) (f : RemoteFileInfo) :
    f ∈ browseEntries entries ↔
      ∃ em, (f.name, some em) ∈ entries ∧
        f.name.startsWith "." = false ∧
        f.is_dir = em.is_dir ∧ f.size = em.size ∧
        f.modified = em.modified := by
  unfold browseEntries
  rw [List.mem_filterMap]
  constructor
  · rintro ⟨⟨name, meta⟩, he, hsome⟩
    by_cases hdot : name.startsWith "."
    · simp [hdot] at hsome
    · cases meta with
      | none => simp [hdot] at hsome
      | some em =>
        simp only [hdot] at hsome
        simp at hsome
        subst hsome
        exact ⟨em, he, by simpa using hdot, rfl, rfl, rfl⟩
  · rintro ⟨em, he, hdot, hd, hs, hm⟩
    refine ⟨(f.name, some em), he, ?_⟩
    cases f with
    | mk n d sz md =>
      simp only at hdot hd hs hm
      simp [hdot, hd, hs, hm]

/-- C9: `GET /browse` defaults to the server's home directory when no
path is given; a missing or non-directory path yields 404; a successful
listing is sorted by raw name ascending (directories and files
interleaved, not separated), contains no entry whose name starts with
`.`, and contains exactly the readable non-hidden entries of the
directory. -/
theorem browse_handler_spec (home : String) (pathParam : Option String)
    (isDir : String → Bool) (readDir : String → Option DirListing) :
    browse_handler home none isDir readDir =
      browse_handler home (some home) isDir readDir ∧
    (isDir (pathParam.getD home) = false →
      browse_handler home pathParam isDir readDir = .error 404) ∧
    (∀ l, browse_handler home pathParam isDir readDir = .ok l →
      List.Sorted (fun a b => a.name ≤ b.name) l ∧
      (∀ f ∈ l, f.name.startsWith "." = false) ∧
      (∀ entries, readDir (pathParam.getD home) = some entries →
        ∀ f, f ∈ l ↔
          ∃ em, (f.name, some em) ∈ entries ∧
            f.name.startsWith "." = false ∧
            f.is_dir = em.is_dir ∧ f.size = em.size ∧
            f.modified = em.modified)) := by
  refine ⟨rfl, ?_, ?_⟩
  · intro h
    unfold browse_handler
    simp [h]
  · intro l hl
    have hdef : browse_handler home pathParam isDir readDir =
        if isDir (pathParam.getD home) = true then
          (match readDir (pathParam.getD home) with
           | some entries => .ok (sortByName (browseEntries entries))
           | none => .ok [])
        else .error 404 := rfl
    rw [hdef] at hl
    cases hdir : isDir (pathParam.getD home) with
    | false => rw [hdir] at hl; simp at hl
    | true =>
      rw [hdir, if_pos rfl] at hl
      cases hrd : readDir (pathParam.getD home) with
      | none =>
        rw [hrd] at hl
        have hl2 : Except.ok ([] : List RemoteFileInfo) = .ok l := hl
        injection hl2 with h
        subst h
        refine ⟨List.sorted_nil, fun f hf => absurd hf (List.not_mem_nil f),
          ?_⟩
        intro entries hentries
        exact absurd hentries (by simp)
      | some entries0 =>
        rw [hrd] at hl
        have hl2 : Except.ok (sortByName (browseEntries entries0)) =
            .ok l := hl
        injection hl2 with h
        subst h
        refine ⟨?_, ?_, ?_⟩
        · exact List.sorted_insertionSort _ _
        · intro f hf
          have hf' : f ∈ browseEntries entries0 := by
            simpa [sortByName] using hf
          obtain ⟨em, -, hdot, -⟩ := (mem_browseEntries entries0 f).1 hf'
          exact hdot
        · intro entries hentries f
          have hee : entries0 = entries := by
            simpa using hentries
          subst hee
          constructor
          · intro hf
            have hf' : f ∈ browseEntries entries0 := by
              simpa [sortByName] using hf
            exact (mem_browseEntries entries0 f).1 hf'
          · intro hex
            have hf' : f ∈ browseEntries entries0 :=
              (mem_browseEntries entries0 f).2 hex
            simpa [sortByName] using hf'

end TailscaleDrive
